import Mathlib

/-
Verification development for the lb_redis_client repository.

The repository is a thin promise-based wrapper over a redis client.  Its
algorithmic core is src/lib/utils.js (mergeObjects, fromString, isEmpty);
src/index.js is a pass-through access layer (getValue, getObject, remove,
deleteKey, ...) over the store.

Modelling conventions:
- JavaScript numbers are modelled as exact rationals (JNum.finite : Rat),
  plus explicit NaN and signed Infinity constructors.  No claim in scope
  depends on IEEE-754 rounding or overflow, so the idealized exact
  semantics is used.
- JavaScript scalar values are the inductive JSVal (number, string,
  boolean, null, undefined).  Strict equality (===) on these scalars is
  structural equality, except on numbers where NaN is unequal to
  everything (jsEqNum).
- Objects are association lists with unique keys (JS objects cannot hold
  a duplicate key); lookup is by first match (getProp).
- The redis store is an association list from key strings to stored
  values; commands are pure state transformers; the promise returned by
  each wrapper is the Promise inductive (resolved / rejected / pending --
  pending models the source's early return inside the executor when the
  client is not ready, which leaves the promise forever unsettled).
-/

namespace LbRedis

/-- JavaScript number: an exact rational, NaN, or a signed infinity. -/
inductive JNum where
  | finite (q : ℚ)
  | nan
  | inf (neg : Bool)
deriving DecidableEq

/-- JavaScript scalar value (the shapes flowing through utils.js). -/
inductive JSVal where
  | num (n : JNum)
  | str (s : String)
  | bool (b : Bool)
  | null
  | undef
deriving DecidableEq

/-- JavaScript strict equality (===) restricted to numbers: NaN is equal
to nothing (including itself); finite values and infinities compare by
value. -/
def jsEqNum : JNum → JNum → Bool
  | JNum.finite a, JNum.finite b => a == b
  | JNum.inf a, JNum.inf b => a == b
  | _, _ => false

/-- JavaScript truthiness (Boolean(v)): 0, NaN, the empty string, false,
null and undefined are falsy, everything else is truthy. -/
def jsTruthy : JSVal → Bool
  | JSVal.num (JNum.finite q) => !(q == 0)
  | JSVal.num JNum.nan => false
  | JSVal.num (JNum.inf _) => true
  | JSVal.str s => !(s == "")
  | JSVal.bool b => b
  | JSVal.null => false
  | JSVal.undef => false

/-- ASCII whitespace stripped by the JavaScript string-to-number
conversions (plus NBSP); the further Unicode space characters are not
needed for any input considered here. -/
def jsWhitespace (c : Char) : Bool :=
  List.contains [ ' ', '\t', '\n', '\r', '\x0b', '\x0c', '\xa0' ] c

/-- Accumulating decimal digits to a natural number (48 is the code of
the zero digit). -/
def digitsToNat (cs : List Char) (acc : ℕ) : ℕ :=
  match cs with
  | [] => acc
  | c :: t => digitsToNat t (10 * acc + (c.toNat - 48))

/-- Value of a hexadecimal digit character, if it is one, by character
code range: 48-57 are the decimal digits, 97-102 the lowercase and
65-70 the uppercase hex letters. -/
def hexDigitVal (c : Char) : Option ℕ :=
  let n := c.toNat
  if 48 ≤ n && n ≤ 57 then some (n - 48)
  else if 97 ≤ n && n ≤ 102 then some (n - 87)
  else if 65 ≤ n && n ≤ 70 then some (n - 55)
  else none

/-- Value of a digit string in the given radix; none if any character is
not a digit of that radix. -/
def radixVal (radix : ℕ) (cs : List Char) (acc : ℕ) : Option ℕ :=
  match cs with
  | [] => some acc
  | c :: t =>
    match hexDigitVal c with
    | some d => if d < radix then radixVal radix t (acc * radix + d) else none
    | none => none

/-- Strip JavaScript whitespace from both ends. -/
def trimWs (cs : List Char) : List Char :=
  (((cs.dropWhile jsWhitespace).reverse).dropWhile jsWhitespace).reverse

/-- Exponent part of a full-string decimal literal: an optional sign
followed by a nonempty run of digits covering the whole remainder. -/
def expFull (cs : List Char) : Option ℤ :=
  match cs with
  | '+' :: t =>
    if t.isEmpty then none
    else if t.all Char.isDigit then some (Int.ofNat (digitsToNat t 0)) else none
  | '-' :: t =>
    if t.isEmpty then none
    else if t.all Char.isDigit then some (-Int.ofNat (digitsToNat t 0)) else none
  | t =>
    if t.isEmpty then none
    else if t.all Char.isDigit then some (Int.ofNat (digitsToNat t 0)) else none

/-- Value of the decimal literal with integer digits ip, fraction digits
fp and exponent e: reading all digits as one integer and scaling by
10 ^ (e - number of fraction digits) is exactly ip.fp x 10 ^ e. -/
def decScaled (ip fp : List Char) (e : ℤ) : ℚ :=
  ((digitsToNat (ip ++ fp) 0 : ℕ) : ℚ) * (10 : ℚ) ^ (e - (fp.length : ℤ))

/-- Mantissa (integer part, fraction part) with a full-string exponent
remainder: the value of the literal, or none if the remainder is not a
valid exponent. -/
def mantExp (ip fp r : List Char) : Option ℚ :=
  match r with
  | [] => some (decScaled ip fp 0)
  | 'e' :: t => (expFull t).map (decScaled ip fp)
  | 'E' :: t => (expFull t).map (decScaled ip fp)
  | _ => none

/-- Full-string unsigned decimal literal of the JavaScript
StringNumericLiteral grammar: digits [. digits] [exponent] or
. digits [exponent]; none when the whole string is not such a literal. -/
def decFull (cs : List Char) : Option ℚ :=
  let ip := cs.takeWhile Char.isDigit
  match cs.dropWhile Char.isDigit with
  | '.' :: t =>
    let fp := t.takeWhile Char.isDigit
    if ip.isEmpty && fp.isEmpty then none
    else mantExp ip fp (t.dropWhile Char.isDigit)
  | r =>
    if ip.isEmpty then none
    else mantExp ip [] r

/-- Signed decimal branch of the string-to-number conversion: the body is
either exactly Infinity or a full decimal literal. -/
def signedDec (neg : Bool) (t : List Char) : JNum :=
  if t = [ 'I', 'n', 'f', 'i', 'n', 'i', 't', 'y' ] then JNum.inf neg
  else
    match decFull t with
    | some q => JNum.finite (if neg then -q else q)
    | none => JNum.nan

/-- Nondecimal (0x / 0o / 0b) branch of the string-to-number conversion:
a nonempty run of digits of the radix covering the rest of the string. -/
def nonDecimal (radix : ℕ) (t : List Char) : JNum :=
  if t.isEmpty then JNum.nan
  else
    match radixVal radix t 0 with
    | some n => JNum.finite (n : ℚ)
    | none => JNum.nan

/-- JavaScript Number(s) conversion of a string (the conversion behind
the global isNaN): trim whitespace; the empty string is 0; otherwise the
whole string must be a numeric literal (signed decimal with optional
fraction and exponent, signed Infinity, or an unsigned 0x/0o/0b
literal), else the result is NaN. -/
def strToNumber (s : String) : JNum :=
  match trimWs s.toList with
  | [] => JNum.finite 0
  | '0' :: 'x' :: t => nonDecimal 16 t
  | '0' :: 'X' :: t => nonDecimal 16 t
  | '0' :: 'o' :: t => nonDecimal 8 t
  | '0' :: 'O' :: t => nonDecimal 8 t
  | '0' :: 'b' :: t => nonDecimal 2 t
  | '0' :: 'B' :: t => nonDecimal 2 t
  | '+' :: t => signedDec false t
  | '-' :: t => signedDec true t
  | t => signedDec false t

/-- JavaScript ToNumber on the modelled scalar values. -/
def toNumber : JSVal → JNum
  | JSVal.num n => n
  | JSVal.str s => strToNumber s
  | JSVal.bool b => JNum.finite (if b then 1 else 0)
  | JSVal.null => JNum.finite 0
  | JSVal.undef => JNum.nan

/-- The global isNaN(v): ToNumber(v) is NaN. -/
def jsIsNaN (v : JSVal) : Bool :=
  toNumber v == JNum.nan

/-- Exponent consumed by parseFloat after the mantissa: the longest
valid exponent prefix, or an empty exponent (factor 1) when the
characters after e/E do not form one (parseFloat backtracks). -/
def expPrefixSigned (t : List Char) : ℤ :=
  match t with
  | '+' :: t2 =>
    let ds := t2.takeWhile Char.isDigit
    if ds.isEmpty then 0 else Int.ofNat (digitsToNat ds 0)
  | '-' :: t2 =>
    let ds := t2.takeWhile Char.isDigit
    if ds.isEmpty then 0 else -Int.ofNat (digitsToNat ds 0)
  | t2 =>
    let ds := t2.takeWhile Char.isDigit
    if ds.isEmpty then 0 else Int.ofNat (digitsToNat ds 0)

/-- Exponent part for parseFloat, starting at the character after the
mantissa. -/
def expPrefixAt (r : List Char) : ℤ :=
  match r with
  | 'e' :: t => expPrefixSigned t
  | 'E' :: t => expPrefixSigned t
  | _ => 0

/-- Longest valid unsigned decimal prefix, as used by parseFloat: leading
digits, an optional fraction, then an optional exponent; none when not
even one mantissa digit is present. -/
def parseDecPrefix (cs : List Char) : Option ℚ :=
  let ip := cs.takeWhile Char.isDigit
  let r1 := cs.dropWhile Char.isDigit
  let fp :=
    match r1 with
    | '.' :: t => t.takeWhile Char.isDigit
    | _ => []
  let r2 :=
    match r1 with
    | '.' :: t => t.dropWhile Char.isDigit
    | _ => r1
  if ip.isEmpty && fp.isEmpty then none
  else some (decScaled ip fp (expPrefixAt r2))

/-- Does the character list start with the word Infinity? -/
def isInfinityPrefix (cs : List Char) : Bool :=
  match cs with
  | 'I' :: 'n' :: 'f' :: 'i' :: 'n' :: 'i' :: 't' :: 'y' :: _ => true
  | _ => false

/-- Body of parseFloat after whitespace and sign. -/
def parseFloatBody (neg : Bool) (t : List Char) : JNum :=
  if isInfinityPrefix t then JNum.inf neg
  else
    match parseDecPrefix t with
    | some q => JNum.finite (if neg then -q else q)
    | none => JNum.nan

/-- JavaScript parseFloat on a string: skip leading whitespace, optional
sign, then the longest decimal-literal (or Infinity) prefix; NaN when no
numeric prefix exists. -/
def parseFloatStr (s : String) : JNum :=
  match (s.toList).dropWhile jsWhitespace with
  | '+' :: t => parseFloatBody false t
  | '-' :: t => parseFloatBody true t
  | t => parseFloatBody false t

/-- Body of parseInt (radix 10) after whitespace and sign. -/
def parseIntBody (neg : Bool) (t : List Char) : JNum :=
  let ds := t.takeWhile Char.isDigit
  if ds.isEmpty then JNum.nan
  else
    JNum.finite
      (((if neg then -(digitsToNat ds 0 : ℤ) else (digitsToNat ds 0 : ℤ)) : ℤ) : ℚ)

/-- JavaScript parseInt(s, 10) on a string: skip leading whitespace,
optional sign, then the longest run of decimal digits; NaN when there is
no digit. -/
def parseIntStr (s : String) : JNum :=
  match (s.toList).dropWhile jsWhitespace with
  | '+' :: t => parseIntBody false t
  | '-' :: t => parseIntBody true t
  | t => parseIntBody false t

/-- Truncation of a rational toward zero. -/
def ratTrunc (q : ℚ) : ℚ :=
  if 0 ≤ q then ((⌊q⌋ : ℤ) : ℚ) else ((⌈q⌉ : ℤ) : ℚ)

/-- parseFloat applied to an arbitrary value: JavaScript first applies
ToString and then parses.  For a finite number this round-trips to the
number itself (parseFloat(ToString(x)) = x for every finite JavaScript
number); NaN, null, undefined and booleans stringify to words with no
numeric prefix; infinities stringify to Infinity / -Infinity. -/
def jsParseFloat : JSVal → JNum
  | JSVal.str s => parseFloatStr s
  | JSVal.num (JNum.finite q) => JNum.finite q
  | JSVal.num JNum.nan => JNum.nan
  | JSVal.num (JNum.inf b) => JNum.inf b
  | JSVal.null => JNum.nan
  | JSVal.undef => JNum.nan
  | JSVal.bool _ => JNum.nan

/-- parseInt(x, 10) applied to an arbitrary value, via ToString.  For a
finite number the digit-prefix parse of its decimal representation is
truncation toward zero (exact for every magnitude below 10^21, where
ToString uses positional notation; no claim here depends on larger
magnitudes).  Infinity stringifies to a word with no leading digit, so
it parses to NaN, as do NaN, null, undefined and booleans. -/
def jsParseInt : JSVal → JNum
  | JSVal.str s => parseIntStr s
  | JSVal.num (JNum.finite q) => JNum.finite (ratTrunc q)
  | JSVal.num JNum.nan => JNum.nan
  | JSVal.num (JNum.inf _) => JNum.nan
  | JSVal.null => JNum.nan
  | JSVal.undef => JNum.nan
  | JSVal.bool _ => JNum.nan

/-- isEmpty from src/lib/utils.js: !variable || variable === 'null' ||
variable === 'undefined'. -/
def isEmpty (v : JSVal) : Bool :=
  !jsTruthy v || v == JSVal.str "null" || v == JSVal.str "undefined"

/-- fromString from src/lib/utils.js: return undefined for the literal
string undefined; null for empty inputs; the input itself when it is not
numeric (isNaN); otherwise the parseInt value when it strictly equals
the parseFloat value, else the parseFloat value. -/
def fromString (item : JSVal) : JSVal :=
  if item = JSVal.str "undefined" then JSVal.undef
  else if isEmpty item then JSVal.null
  else if jsIsNaN item then item
  else
    let f := jsParseFloat item
    let i := jsParseInt item
    if jsEqNum i f then JSVal.num i else JSVal.num f

/-- JavaScript object with scalar fields, as an association list in key
insertion order; a JS object cannot hold the same key twice, so the
lists of interest have nodup keys. -/
abbrev JSObj : Type := List (String × JSVal)

/-- Own property lookup (first entry with the key). -/
def getProp : JSObj → String → Option JSVal
  | [], _ => none
  | p :: t, k => if p.1 = k then some p.2 else getProp t k

/-- Object.keys: the keys in insertion order. -/
def objKeys (o : JSObj) : List String :=
  List.map (fun p => p.1) o

/-- Truthiness of a property access (a missing key reads as undefined,
which is falsy). -/
def truthyOpt : Option JSVal → Bool
  | some v => jsTruthy v
  | none => false

/-- Property assignment: replace the value of the first entry holding
the key, or append a new entry. -/
def setProp : JSObj → String → JSVal → JSObj
  | [], key, v => [ (key, v) ]
  | p :: t, key, v => if p.1 = key then (key, v) :: t else p :: setProp t key v

/-- Object.assign(b, s) for object arguments: assign every entry of s
onto b, left to right. -/
def objAssign (b s : JSObj) : JSObj :=
  List.foldl (fun acc p => setProp acc p.1 p.2) b s

/-- The filtered overlay built inside mergeObjects: the keys of target
whose value is truthy, each mapped to its value (reading a present key,
so the getD default is never used). -/
def sourceObj (target : JSObj) : JSObj :=
  List.map (fun k => (k, (getProp target k).getD JSVal.undef))
    (List.filter (fun k => truthyOpt (getProp target k)) (objKeys target))

/-- Truthiness of an object-or-nullish argument: every object is truthy,
null and undefined (both modelled by none) are falsy. -/
def truthyObjArg : Option JSObj → Bool
  | some _ => true
  | none => false

/-- mergeObjects from src/lib/utils.js: if either argument is nullish
return the empty object, otherwise Object.assign a fresh object with obj
and then with the truthy-valued entries of target. -/
def mergeObjects (obj target : Option JSObj) : JSObj :=
  if !truthyObjArg obj || !truthyObjArg target then []
  else objAssign (objAssign [] (obj.getD [])) (sourceObj (target.getD []))

/-- Object.keys as it behaves on the guarded path of mergeObjects, with
the TypeError it would throw on a nullish argument made explicit. -/
def objKeysE : Option JSObj → Except String (List String)
  | none => Except.error "TypeError: Cannot convert undefined or null to object"
  | some o => Except.ok (objKeys o)

/-- mergeObjects with the one failure mode of its body (Object.keys on a
nullish argument throws) modelled as an Except error: the early-return
guard is what keeps the error path unreachable. -/
def mergeObjectsE (obj target : Option JSObj) : Except String JSObj :=
  if !truthyObjArg obj || !truthyObjArg target then Except.ok []
  else
    Except.map
      (fun tkeys =>
        objAssign (objAssign [] (obj.getD []))
          (List.map (fun k => (k, (getProp (target.getD []) k).getD JSVal.undef))
            (List.filter (fun k => truthyOpt (getProp (target.getD []) k)) tkeys)))
      (objKeysE target)

/-- A value stored in the redis keyspace: a plain string, a hash of
string fields, or a set of string members. -/
inductive RedisVal where
  | rstr (s : String)
  | rhash (fields : List (String × String))
  | rset (members : List String)
deriving DecidableEq

/-- The redis keyspace. -/
abbrev RedisDb : Type := List (String × RedisVal)

/-- Lookup of a raw key in the keyspace. -/
def dbLookup : RedisDb → String → Option RedisVal
  | [], _ => none
  | p :: t, k => if p.1 = k then some p.2 else dbLookup t k

/-- GET: null reply for a missing key, the string for a string key, a
WRONGTYPE error for any other stored type. -/
def redisGet (db : RedisDb) (k : String) : Except String (Option String) :=
  match dbLookup db k with
  | none => Except.ok none
  | some (RedisVal.rstr s) => Except.ok (some s)
  | some _ => Except.error "WRONGTYPE Operation against a key holding the wrong kind of value"

/-- HGETALL: null reply for a missing key (node redis turns the empty
reply into null), the field map for a hash key, WRONGTYPE otherwise. -/
def redisHGetAll (db : RedisDb) (k : String) : Except String (Option (List (String × String))) :=
  match dbLookup db k with
  | none => Except.ok none
  | some (RedisVal.rhash f) => Except.ok (some f)
  | some _ => Except.error "WRONGTYPE Operation against a key holding the wrong kind of value"

/-- DEL: drop every binding of the key. -/
def redisDel : RedisDb → String → RedisDb
  | [], _ => []
  | p :: t, k => if p.1 = k then redisDel t k else p :: redisDel t k

/-- SET: bind the key to a string value, dropping any previous binding. -/
def redisSet (db : RedisDb) (k : String) (v : String) : RedisDb :=
  (k, RedisVal.rstr v) :: redisDel db k

/-- The mutable config object of src/index.js; only dataPrefix matters to
the modelled commands, the connection settings are carried for shape. -/
structure Config where
  host : String
  port : String
  dataPrefix : String
  maxReconnectAttemptTimout : ℕ
  maxReconnectTimeout : ℕ
deriving DecidableEq

/-- The default config literal of src/index.js (host/port when the env
variables are absent). -/
def defaultConfig : Config :=
  ⟨"localhost", "6379", "lb_", 3000, 3600000⟩

/-- Outcome of one of the wrapper promises: resolved, rejected, or
forever pending (the source's not-ready guard returns from the promise
executor without settling the outer promise). -/
inductive Promise (α : Type) where
  | resolved (a : α)
  | rejected (e : String)
  | pending
deriving DecidableEq

/-- promise.then with a synchronous continuation. -/
def pThen {α β : Type} (p : Promise α) (f : α → β) : Promise β :=
  match p with
  | Promise.resolved a => Promise.resolved (f a)
  | Promise.rejected e => Promise.rejected e
  | Promise.pending => Promise.pending

/-- The private _get of src/index.js: when the client is not ready the
executor returns early and the promise never settles; otherwise the
client method is called on dataPrefix + key and its error or result
settles the promise. -/
def _get {α : Type} (ready : Bool) (cfg : Config) (cmd : String → Except String α)
    (key : String) : Promise α :=
  if ready = false then Promise.pending
  else
    match cmd (cfg.dataPrefix ++ key) with
    | Except.ok r => Promise.resolved r
    | Except.error e => Promise.rejected e

/-- The private _set of src/index.js, as a state transformer on the
keyspace: with a lifetime the command carries NX (only set a missing
key; the EX expiry itself is wall-clock behavior outside this model),
without a lifetime it is a plain overwrite.  The not-ready guard and
error callback behave as in _get and are not needed by any claim about
_set, so the new keyspace alone is modelled. -/
def _setState (cfg : Config) (db : RedisDb) (key value : String)
    (lifetime : Option ℕ) : RedisDb :=
  match lifetime with
  | some _ =>
    if (dbLookup db (cfg.dataPrefix ++ key)).isSome then db
    else redisSet db (cfg.dataPrefix ++ key) value
  | none => redisSet db (cfg.dataPrefix ++ key) value

/-- setValue stores a primitive under the prefixed key. -/
def setValueState (cfg : Config) (db : RedisDb) (key value : String)
    (lifetime : Option ℕ) : RedisDb :=
  _setState cfg db key value lifetime

/-- The null-or-string reply of a GET, as the JavaScript value handed to
fromString. -/
def nullOrString : Option String → JSVal
  | none => JSVal.null
  | some s => JSVal.str s

/-- getValue from src/index.js: _get('get', key).then(fromString). -/
def getValue (ready : Bool) (cfg : Config) (db : RedisDb) (key : String) : Promise JSVal :=
  pThen (_get ready cfg (redisGet db) key) (fun r => fromString (nullOrString r))

/-- getObject from src/index.js: _get('hgetall', key) followed by the
continuation that returns null for an empty (nullish) reply — isEmpty on
the reply is true exactly when the reply is null — and otherwise copies
every field through fromString.  A redis hash cannot repeat a field, so
the forEach over Object.keys is a map over the field list. -/
def getObject (ready : Bool) (cfg : Config) (db : RedisDb) (key : String) :
    Promise (Option (List (String × JSVal))) :=
  pThen (_get ready cfg (redisHGetAll db) key)
    (fun object =>
      match object with
      | none => none
      | some flds => some (List.map (fun p => (p.1, fromString (JSVal.str p.2))) flds))

/-- remove from src/index.js: redisClient.del(key) on the RAW key — no
dataPrefix is prepended. -/
def removeState (_cfg : Config) (db : RedisDb) (key : String) : RedisDb :=
  redisDel db key

/-- deleteKey from src/index.js: redisClient.del on dataPrefix + key. -/
def deleteKeyState (cfg : Config) (db : RedisDb) (key : String) : RedisDb :=
  redisDel db (cfg.dataPrefix ++ key)

theorem fromStringNumBranch (x : JSVal) (h0 : x ≠ JSVal.str "undefined")
    (h1 : isEmpty x = false) (h2 : jsIsNaN x = false) :
    fromString x =
      if jsEqNum (jsParseInt x) (jsParseFloat x) then JSVal.num (jsParseInt x)
      else JSVal.num (jsParseFloat x) := by
  unfold fromString
  rw [if_neg h0, if_neg (by simp [h1]), if_neg (by simp [h2])]

theorem parseInt_str_0 : jsParseInt (JSVal.str "0") = JNum.finite 0 := by
  have h : jsParseInt (JSVal.str "0") = JNum.finite (((0 : ℤ)) : ℚ) := rfl
  rw [h]
  norm_num

theorem parseFloat_str_0 : jsParseFloat (JSVal.str "0") = JNum.finite 0 := by
  have h : jsParseFloat (JSVal.str "0") = JNum.finite (decScaled [ '0' ] [] 0) := rfl
  rw [h, decScaled]
  norm_num [show digitsToNat [ '0' ] 0 = 0 from rfl]

theorem parseInt_str_192 : jsParseInt (JSVal.str "192") = JNum.finite 192 := by
  have h : jsParseInt (JSVal.str "192") = JNum.finite (((192 : ℤ)) : ℚ) := rfl
  rw [h]
  norm_num

theorem parseFloat_str_192 : jsParseFloat (JSVal.str "192") = JNum.finite 192 := by
  have h : jsParseFloat (JSVal.str "192") = JNum.finite (decScaled [ '1', '9', '2' ] [] 0) := rfl
  rw [h, decScaled]
  norm_num [show digitsToNat [ '1', '9', '2' ] 0 = 192 from rfl]

theorem parseInt_str_123 : jsParseInt (JSVal.str "123") = JNum.finite 123 := by
  have h : jsParseInt (JSVal.str "123") = JNum.finite (((123 : ℤ)) : ℚ) := rfl
  rw [h]
  norm_num

theorem parseFloat_str_123 : jsParseFloat (JSVal.str "123") = JNum.finite 123 := by
  have h : jsParseFloat (JSVal.str "123") = JNum.finite (decScaled [ '1', '2', '3' ] [] 0) := rfl
  rw [h, decScaled]
  norm_num [show digitsToNat [ '1', '2', '3' ] 0 = 123 from rfl]

theorem parseInt_str_10_11 : jsParseInt (JSVal.str "10.11") = JNum.finite 10 := by
  have h : jsParseInt (JSVal.str "10.11") = JNum.finite (((10 : ℤ)) : ℚ) := rfl
  rw [h]
  norm_num

theorem parseFloat_str_10_11 :
    jsParseFloat (JSVal.str "10.11") = JNum.finite (1011 / 100) := by
  have h : jsParseFloat (JSVal.str "10.11") =
      JNum.finite (decScaled [ '1', '0' ] [ '1', '1' ] 0) := rfl
  rw [h, decScaled]
  norm_num [show digitsToNat [ '1', '0', '1', '1' ] 0 = 1011 from rfl]

theorem fromString_str_0 : fromString (JSVal.str "0") = JSVal.num (JNum.finite 0) := by
  rw [fromStringNumBranch _ (by decide) (by decide) (by decide), parseInt_str_0,
    parseFloat_str_0]
  simp [jsEqNum]

theorem fromString_str_192 :
    fromString (JSVal.str "192") = JSVal.num (JNum.finite 192) := by
  rw [fromStringNumBranch _ (by decide) (by decide) (by decide), parseInt_str_192,
    parseFloat_str_192]
  simp [jsEqNum]

theorem fromString_str_123 :
    fromString (JSVal.str "123") = JSVal.num (JNum.finite 123) := by
  rw [fromStringNumBranch _ (by decide) (by decide) (by decide), parseInt_str_123,
    parseFloat_str_123]
  simp [jsEqNum]

theorem fromString_str_10_11 :
    fromString (JSVal.str "10.11") = JSVal.num (JNum.finite (1011 / 100)) := by
  rw [fromStringNumBranch _ (by decide) (by decide) (by decide), parseInt_str_10_11,
    parseFloat_str_10_11]
  have hne : jsEqNum (JNum.finite 10) (JNum.finite (1011 / 100)) = false := by
    simp only [jsEqNum, beq_eq_false_iff_ne, ne_eq]
    norm_num
  simp [hne]

theorem fromString_num_truthy (n : JNum) (hn : jsTruthy (JSVal.num n) = true) :
    fromString (JSVal.num n) = JSVal.num n := by
  cases n with
  | nan => simp [jsTruthy] at hn
  | inf b =>
    have h1 : isEmpty (JSVal.num (JNum.inf b)) = false := by simp [isEmpty, jsTruthy]
    have h2 : jsIsNaN (JSVal.num (JNum.inf b)) = false := by simp [jsIsNaN, toNumber]
    rw [fromStringNumBranch _ (by simp) h1 h2]
    simp [jsParseInt, jsParseFloat, jsEqNum]
  | finite q =>
    have hq : q ≠ 0 := by
      intro h
      rw [h] at hn
      simp [jsTruthy] at hn
    have h1 : isEmpty (JSVal.num (JNum.finite q)) = false := by
      simp [isEmpty, jsTruthy, hq]
    have h2 : jsIsNaN (JSVal.num (JNum.finite q)) = false := by simp [jsIsNaN, toNumber]
    rw [fromStringNumBranch _ (by simp) h1 h2]
    by_cases ht : ratTrunc q = q
    · simp [jsParseInt, jsParseFloat, jsEqNum, ht]
    · simp [jsParseInt, jsParseFloat, jsEqNum, ht]

/-- C1: the claim asserts coerce(0) = null AND coerce("0") = null.  The
first holds, but the one-character string is truthy in JavaScript, so it
does not take the empty branch: the code returns the number 0 for the
string input. -/
theorem c1_counterexample :
    fromString (JSVal.str "0") = JSVal.num (JNum.finite 0) ∧
      fromString (JSVal.str "0") ≠ JSVal.null := by
  refine ⟨fromString_str_0, ?_⟩
  rw [fromString_str_0]
  simp

/-- C1 (amended): coerce(0) = null via the empty branch (the number 0 is
falsy), while coerce("0") is the number 0 via the numeric branch (the
string "0" is truthy, so isEmpty is false and the parse returns 0). -/
theorem c1_amended :
    fromString (JSVal.num (JNum.finite 0)) = JSVal.null ∧
      isEmpty (JSVal.num (JNum.finite 0)) = true ∧
      fromString (JSVal.str "0") = JSVal.num (JNum.finite 0) ∧
      isEmpty (JSVal.str "0") = false :=
  ⟨by decide, by decide, fromString_str_0, by decide⟩

/-- C2: an input that is not the literal string undefined, is not
classified empty, and is not numerically parseable (isNaN) passes
through fromString unchanged. -/
theorem c2_nonparseable_passthrough (x : JSVal) (h0 : x ≠ JSVal.str "undefined")
    (h1 : isEmpty x = false) (h2 : jsIsNaN x = true) : fromString x = x := by
  unfold fromString
  rw [if_neg h0, if_neg (by simp [h1]), if_pos h2]

theorem c2_witness : fromString (JSVal.str "abc") = JSVal.str "abc" :=
  c2_nonparseable_passthrough (JSVal.str "abc") (by decide) (by decide) (by decide)

/-- C6: fromString returns undefined exactly for the literal string
undefined, and null for every other input that is falsy or equals the
literal string null. -/
theorem c6_first_two_steps (x : JSVal) (hne : x ≠ JSVal.str "undefined")
    (h : jsTruthy x = false ∨ x = JSVal.str "null") :
    fromString (JSVal.str "undefined") = JSVal.undef ∧ fromString x = JSVal.null := by
  refine ⟨by decide, ?_⟩
  have he : isEmpty x = true := by
    rcases h with h | h
    · simp [isEmpty, h]
    · rw [h]
      decide
  unfold fromString
  rw [if_neg hne, if_pos he]

theorem c6_witness :
    fromString (JSVal.str "undefined") = JSVal.undef ∧
      fromString JSVal.null = JSVal.null :=
  c6_first_two_steps JSVal.null (by decide) (Or.inl (by decide))

/-- C7: on a numerically parseable, non-empty, non-undefined input,
fromString returns the parseInt value when it strictly equals the
parseFloat value and the parseFloat value otherwise; concretely the
integer strings 192 and 123 come back as the integers 192 and 123, and
10.11 comes back as the fractional value 1011/100. -/
theorem c7_numeric_parse (x : JSVal) (h0 : x ≠ JSVal.str "undefined")
    (h1 : isEmpty x = false) (h2 : jsIsNaN x = false) :
    (fromString x =
        if jsEqNum (jsParseInt x) (jsParseFloat x) then JSVal.num (jsParseInt x)
        else JSVal.num (jsParseFloat x)) ∧
      fromString (JSVal.str "192") = JSVal.num (JNum.finite 192) ∧
      fromString (JSVal.str "123") = JSVal.num (JNum.finite 123) ∧
      fromString (JSVal.str "10.11") = JSVal.num (JNum.finite (1011 / 100)) :=
  ⟨fromStringNumBranch x h0 h1 h2, fromString_str_192, fromString_str_123,
    fromString_str_10_11⟩

theorem c7_witness :
    (fromString (JSVal.str "192") =
        if jsEqNum (jsParseInt (JSVal.str "192")) (jsParseFloat (JSVal.str "192")) then
          JSVal.num (jsParseInt (JSVal.str "192"))
        else JSVal.num (jsParseFloat (JSVal.str "192"))) ∧
      fromString (JSVal.str "192") = JSVal.num (JNum.finite 192) ∧
      fromString (JSVal.str "123") = JSVal.num (JNum.finite 123) ∧
      fromString (JSVal.str "10.11") = JSVal.num (JNum.finite (1011 / 100)) :=
  c7_numeric_parse (JSVal.str "192") (by decide) (by decide) (by decide)

/-- C3: the claim quantifies over every native number, string, null and
undefined.  It fails on two native strings: "undefined" coerces to
undefined but a second application turns that into null, and "0" coerces
to the number 0 but a second application turns that into null. -/
theorem c3_counterexample :
    fromString (fromString (JSVal.str "undefined")) ≠ fromString (JSVal.str "undefined") ∧
      fromString (fromString (JSVal.str "0")) ≠ fromString (JSVal.str "0") := by
  constructor
  · decide
  · rw [fromString_str_0]
    decide

/-- C3 (amended): applying fromString twice agrees with applying it once
for every input whose first coercion is neither undefined nor a falsy
number (NaN or 0); this covers every native number, null, undefined,
and every string except "undefined" and the strings whose numeric parse
is 0 or NaN. -/
theorem c3_amended (x : JSVal) (h1 : fromString x ≠ JSVal.undef)
    (h2 : ∀ n, fromString x = JSVal.num n → jsTruthy (JSVal.num n) = true) :
    fromString (fromString x) = fromString x := by
  by_cases hx : x = JSVal.str "undefined"
  · exact absurd (by rw [hx]; decide) h1
  · cases he : isEmpty x with
    | true =>
      have hr : fromString x = JSVal.null := by
        unfold fromString
        rw [if_neg hx, if_pos he]
      rw [hr]
      decide
    | false =>
      cases hn : jsIsNaN x with
      | true =>
        have hr : fromString x = x := by
          unfold fromString
          rw [if_neg hx, if_neg (by simp [he]), if_pos hn]
        rw [hr]
        exact hr
      | false =>
        have hbr := fromStringNumBranch x hx he hn
        cases hc : jsEqNum (jsParseInt x) (jsParseFloat x) with
        | true =>
          rw [hc] at hbr
          simp only [if_true] at hbr
          rw [hbr]
          exact fromString_num_truthy _ (h2 _ hbr)
        | false =>
          rw [hc] at hbr
          simp only [Bool.false_eq_true, if_false] at hbr
          rw [hbr]
          exact fromString_num_truthy _ (h2 _ hbr)

theorem c3_witness : fromString (fromString JSVal.null) = fromString JSVal.null :=
  c3_amended JSVal.null (by decide)
    (by
      intro n h
      rw [show fromString JSVal.null = JSVal.null from by decide] at h
      exact absurd h (by simp))

theorem getProp_setProp (o : JSObj) (key : String) (v : JSVal) (k : String) :
    getProp (setProp o key v) k = if k = key then some v else getProp o k := by
  induction o with
  | nil =>
    simp only [setProp, getProp]
    by_cases h : k = key
    · subst h
      rw [if_pos rfl]
    · rw [if_neg (fun hh : key = k => h hh.symm), if_neg h]
  | cons p t ih =>
    by_cases hp : p.1 = key
    · rw [show setProp (p :: t) key v = (key, v) :: t from by simp [setProp, hp]]
      by_cases h : k = key
      · subst h
        simp [getProp]
      · simp only [getProp]
        rw [if_neg (fun hh : key = k => h hh.symm), if_neg h,
          if_neg (fun hh : p.1 = k => h (hp.symm.trans hh).symm)]
    · rw [show setProp (p :: t) key v = p :: setProp t key v from by simp [setProp, hp]]
      simp only [getProp]
      rw [ih]
      by_cases hk : p.1 = k
      · rw [if_pos hk, if_neg (fun hh : k = key => hp (hk.trans hh)), if_pos hk]
      · rw [if_neg hk, if_neg hk]

theorem getProp_eq_none (t : JSObj) (k : String) (h : k ∉ objKeys t) :
    getProp t k = none := by
  induction t with
  | nil => rfl
  | cons p s ih =>
    have h' : ¬(k = p.1 ∨ k ∈ objKeys s) := by simpa [objKeys] using h
    push_neg at h'
    simp only [getProp]
    rw [if_neg (fun hh => h'.1 hh.symm), ih h'.2]

theorem mem_objKeys_of_getProp (t : JSObj) (k : String) (v : JSVal)
    (h : getProp t k = some v) : k ∈ objKeys t := by
  induction t with
  | nil => simp [getProp] at h
  | cons p s ih =>
    simp only [getProp] at h
    by_cases hp : p.1 = k
    · simp [objKeys, hp.symm]
    · rw [if_neg hp] at h
      have := ih h
      simp only [objKeys, List.map_cons, List.mem_cons]
      right
      simpa [objKeys] using this

theorem getProp_objAssign (s : JSObj) (b : JSObj) (hs : (objKeys s).Nodup)
    (k : String) :
    getProp (objAssign b s) k =
      if (getProp s k).isSome then getProp s k else getProp b k := by
  induction s generalizing b with
  | nil => simp [objAssign, getProp]
  | cons p t ih =>
    have hs' := List.nodup_cons.mp (show (p.1 :: objKeys t).Nodup from hs)
    have hstep : objAssign b (p :: t) = objAssign (setProp b p.1 p.2) t := rfl
    rw [hstep, ih _ hs'.2]
    simp only [getProp]
    by_cases hk : p.1 = k
    · have hnone : getProp t k = none := getProp_eq_none t k (by rw [← hk]; exact hs'.1)
      rw [getProp_setProp]
      simp [hk, hnone]
    · rw [getProp_setProp]
      simp only [if_neg hk, if_neg (fun hh : k = p.1 => hk hh.symm)]

theorem getProp_keyed_map (l : List String) (g : String → JSVal) (k : String) :
    getProp (List.map (fun a => (a, g a)) l) k =
      if k ∈ l then some (g k) else none := by
  induction l with
  | nil => simp [getProp]
  | cons a t ih =>
    simp only [List.map_cons, getProp]
    by_cases h : a = k
    · subst h
      simp
    · rw [if_neg h, ih]
      simp [List.mem_cons, Ne.symm h]

theorem getProp_sourceObj (t : JSObj) (k : String) :
    getProp (sourceObj t) k =
      if truthyOpt (getProp t k) then getProp t k else none := by
  unfold sourceObj
  rw [getProp_keyed_map]
  by_cases hm : k ∈ List.filter (fun a => truthyOpt (getProp t a)) (objKeys t)
  · rw [if_pos hm]
    have hmf := List.mem_filter.mp hm
    rw [if_pos hmf.2]
    cases hg : getProp t k with
    | none =>
      rw [hg] at hmf
      simp [truthyOpt] at hmf
    | some v => simp [hg]
  · rw [if_neg hm]
    by_cases hv : truthyOpt (getProp t k) = true
    · exfalso
      apply hm
      apply List.mem_filter.mpr
      refine ⟨?_, hv⟩
      cases hg : getProp t k with
      | none =>
        rw [hg] at hv
        simp [truthyOpt] at hv
      | some v => exact mem_objKeys_of_getProp t k v hg
    · simp [hv]

theorem objKeys_keyed_map (l : List String) (g : String → JSVal) :
    objKeys (List.map (fun a => (a, g a)) l) = l := by
  induction l with
  | nil => rfl
  | cons a t ih => simp only [List.map_cons, objKeys] at ih ⊢; rw [ih]

theorem objKeys_sourceObj (t : JSObj) :
    objKeys (sourceObj t) =
      List.filter (fun a => truthyOpt (getProp t a)) (objKeys t) := by
  unfold sourceObj
  exact objKeys_keyed_map _ _

/-- C4: for object arguments with nodup keys, a key of the merge result
reads the override value exactly when that value is truthy, and the base
value otherwise — so truthy override entries replace or add, falsy
override entries are dropped (even over a falsy base value), and
base-only keys are preserved. -/
theorem c4_merge_overlay (b t : JSObj) (hb : (objKeys b).Nodup)
    (ht : (objKeys t).Nodup) (k : String) :
    getProp (mergeObjects (some b) (some t)) k =
      if truthyOpt (getProp t k) then getProp t k else getProp b k := by
  have hsrc : (objKeys (sourceObj t)).Nodup := by
    rw [objKeys_sourceObj]
    exact ht.filter _
  rw [show mergeObjects (some b) (some t) =
      objAssign (objAssign [] b) (sourceObj t) from rfl]
  rw [getProp_objAssign _ _ hsrc, getProp_objAssign _ _ hb, getProp_sourceObj]
  cases hgb : getProp b k with
  | none =>
    cases hgt : getProp t k with
    | none => simp [truthyOpt, getProp]
    | some v => by_cases hv : jsTruthy v = true <;> simp [truthyOpt, hv, getProp]
  | some w =>
    cases hgt : getProp t k with
    | none => simp [truthyOpt, getProp]
    | some v => by_cases hv : jsTruthy v = true <;> simp [truthyOpt, hv, getProp]

theorem c4_witness :
    getProp
        (mergeObjects
          (some [ ("foo", JSVal.str "123"), ("bar", JSVal.num (JNum.finite 1)) ])
          (some [ ("foo", JSVal.null), ("bar", JSVal.num (JNum.finite 2)) ]))
        "foo" =
      some (JSVal.str "123") := by
  rw [c4_merge_overlay _ _ (by decide) (by decide) "foo"]
  decide

/-- C5: a nullish argument on either side makes mergeObjects return the
empty object, not the other argument. -/
theorem c5_merge_nullish (x y : Option JSObj) :
    mergeObjects none x = [] ∧ mergeObjects y none = [] := by
  constructor
  · rfl
  · cases y <;> rfl

/-- C8: both functions are total and error-free: the Except-level model
of mergeObjects (whose only throwing operation, Object.keys on a nullish
argument, sits behind the early-return guard) always returns ok with the
value of the pure model; nullish merge input is normalized to the empty
mapping and falsy coercer input (null, undefined, 0, NaN, empty string,
false — everything except the literal string undefined) is normalized to
null rather than signalled. -/
theorem c8_totality (b t : Option JSObj) (x : JSVal) (hx : jsTruthy x = false)
    (hxu : x ≠ JSVal.str "undefined") :
    mergeObjectsE b t = Except.ok (mergeObjects b t) ∧
      mergeObjects none t = [] ∧ mergeObjects b none = [] ∧
      fromString x = JSVal.null := by
  refine ⟨?_, rfl, by cases b <;> rfl, ?_⟩
  · cases b with
    | none => rfl
    | some bo =>
      cases t with
      | none => rfl
      | some t2 => rfl
  · have he : isEmpty x = true := by simp [isEmpty, hx]
    unfold fromString
    rw [if_neg hxu, if_pos he]

theorem c8_witness :
    mergeObjectsE none none = Except.ok (mergeObjects none none) ∧
      mergeObjects none none = [] ∧ mergeObjects none none = [] ∧
      fromString JSVal.null = JSVal.null :=
  c8_totality none none JSVal.null (by decide) (by decide)

/-- C9: with a ready client, getValue resolves with fromString applied to
the raw stored string under the prefixed key, and getObject resolves
with the stored hash in which every field value went through fromString. -/
theorem c9_access_coercion (cfg : Config) (db : RedisDb) (k1 k2 : String)
    (s : String) (flds : List (String × String))
    (h1 : redisGet db (cfg.dataPrefix ++ k1) = Except.ok (some s))
    (h2 : redisHGetAll db (cfg.dataPrefix ++ k2) = Except.ok (some flds)) :
    getValue true cfg db k1 = Promise.resolved (fromString (JSVal.str s)) ∧
      getObject true cfg db k2 =
        Promise.resolved
          (some (List.map (fun p => (p.1, fromString (JSVal.str p.2))) flds)) := by
  constructor
  · unfold getValue _get
    rw [if_neg (by simp), h1]
    rfl
  · unfold getObject _get
    rw [if_neg (by simp), h2]
    rfl

theorem c9_witness :
    getValue true defaultConfig
        [ ("lb_a", RedisVal.rstr "abc"), ("lb_b", RedisVal.rhash [ ("f", "xyz") ]) ]
        "a" =
      Promise.resolved (fromString (JSVal.str "abc")) ∧
      getObject true defaultConfig
        [ ("lb_a", RedisVal.rstr "abc"), ("lb_b", RedisVal.rhash [ ("f", "xyz") ]) ]
        "b" =
      Promise.resolved (some [ ("f", fromString (JSVal.str "xyz")) ]) :=
  c9_access_coercion defaultConfig
    [ ("lb_a", RedisVal.rstr "abc"), ("lb_b", RedisVal.rhash [ ("f", "xyz") ]) ]
    "a" "b" "abc" [ ("f", "xyz") ] rfl rfl

theorem append_ne_of_ne_empty (p k : String) (hp : p ≠ "") : p ++ k ≠ k := by
  intro h
  apply hp
  have hd : p.data ++ k.data = k.data := by
    have h2 := congrArg String.data h
    simpa [String.data_append] using h2
  have hlen := congrArg List.length hd
  rw [List.length_append] at hlen
  have hz : p.data.length = 0 := by omega
  have hpd : p.data = [] := List.length_eq_zero.mp hz
  cases p with
  | mk l =>
    simp only at hpd
    rw [hpd]

theorem dbLookup_redisDel (db : RedisDb) (k j : String) :
    dbLookup (redisDel db k) j = if j = k then none else dbLookup db j := by
  induction db with
  | nil => simp [redisDel, dbLookup]
  | cons p t ih =>
    simp only [redisDel]
    by_cases hp : p.1 = k
    · rw [if_pos hp, ih]
      by_cases hj : j = k
      · rw [if_pos hj, if_pos hj]
      · rw [if_neg hj, if_neg hj]
        simp only [dbLookup]
        rw [if_neg (fun hh : p.1 = j => hj (hh.symm.trans hp))]
    · rw [if_neg hp]
      simp only [dbLookup]
      rw [ih]
      by_cases hpj : p.1 = j
      · have hjk : ¬j = k := fun hh => hp (hpj.trans hh)
        rw [if_pos hpj, if_neg hjk, if_pos hpj]
      · rw [if_neg hpj, if_neg hpj]

/-- C10: remove issues DEL on the raw key while deleteKey issues DEL on
the prefixed key; consequently, after setValue stores under the prefixed
key, remove with the same logical key leaves the stored value in place
(whenever the prefix is nonempty) and deleteKey deletes it. -/
theorem c10_remove_unprefixed (cfg : Config) (db : RedisDb) (key value : String)
    (hp : cfg.dataPrefix ≠ "") :
    removeState cfg db key = redisDel db key ∧
      deleteKeyState cfg db key = redisDel db (cfg.dataPrefix ++ key) ∧
      dbLookup (removeState cfg (setValueState cfg db key value none) key)
          (cfg.dataPrefix ++ key) = some (RedisVal.rstr value) ∧
      dbLookup (deleteKeyState cfg (setValueState cfg db key value none) key)
          (cfg.dataPrefix ++ key) = none := by
  have hne : cfg.dataPrefix ++ key ≠ key := append_ne_of_ne_empty _ _ hp
  refine ⟨rfl, rfl, ?_, ?_⟩
  · rw [show removeState cfg (setValueState cfg db key value none) key =
        redisDel (redisSet db (cfg.dataPrefix ++ key) value) key from rfl]
    rw [dbLookup_redisDel, if_neg hne]
    rw [show redisSet db (cfg.dataPrefix ++ key) value =
        (cfg.dataPrefix ++ key, RedisVal.rstr value) ::
          redisDel db (cfg.dataPrefix ++ key) from rfl]
    simp [dbLookup]
  · rw [show deleteKeyState cfg (setValueState cfg db key value none) key =
        redisDel (redisSet db (cfg.dataPrefix ++ key) value)
          (cfg.dataPrefix ++ key) from rfl]
    rw [show redisSet db (cfg.dataPrefix ++ key) value =
        (cfg.dataPrefix ++ key, RedisVal.rstr value) ::
          redisDel db (cfg.dataPrefix ++ key) from rfl]
    simp [redisDel, dbLookup_redisDel]

theorem c10_witness :
    removeState defaultConfig [] "a" = redisDel [] "a" ∧
      deleteKeyState defaultConfig [] "a" =
        redisDel [] (defaultConfig.dataPrefix ++ "a") ∧
      dbLookup
          (removeState defaultConfig (setValueState defaultConfig [] "a" "x" none) "a")
          (defaultConfig.dataPrefix ++ "a") = some (RedisVal.rstr "x") ∧
      dbLookup
          (deleteKeyState defaultConfig (setValueState defaultConfig [] "a" "x" none) "a")
          (defaultConfig.dataPrefix ++ "a") = none :=
  c10_remove_unprefixed defaultConfig [] "a" "x" (by decide)

end LbRedis
